import Mathlib

/-!
Verification development for the rust-network-mgr daemon.

Shallow embedding of the core modules (nftables projector, main event
loop, netlink watcher, docker watcher, control socket) as executable
Lean definitions, together with theorems settling the behavioural
claims of the specification against the code.

Rust `HashMap`s are modelled as association lists (`alGet`/`alInsert`/
`alRemove` mirror `get`/`insert`/`remove`); `HashSet<IpAddr>`s as
duplicate-free lists built by insert-if-absent (`hsInsert`).
-/

namespace Rnm

/-- Model of `std::net::IpAddr`: a v4 or a v6 address.  Only equality and
the v4/v6 family distinction matter to the program, so the payloads are
plain numerals. -/
inductive IpAddr where
  | v4 (a b c d : Nat)
  | v6 (a b c d e f g h : Nat)
deriving DecidableEq

/-- `true` exactly on v4 addresses (the `IpAddr::V4` match arms). -/
def IpAddr.isV4 : IpAddr → Bool
  | .v4 _ _ _ _ => true
  | .v6 _ _ _ _ _ _ _ _ => false

/-- `HashMap::get`: first binding of the key, if any. -/
def alGet {α β : Type} [DecidableEq α] (m : List (α × β)) (k : α) : Option β :=
  match m with
  | [] => none
  | (k₀, v₀) :: rest => if k₀ = k then some v₀ else alGet rest k

/-- `HashMap::insert`: replace the binding of the key, or add one. -/
def alInsert {α β : Type} [DecidableEq α] (m : List (α × β)) (k : α) (v : β) :
    List (α × β) :=
  match m with
  | [] => [(k, v)]
  | (k₀, v₀) :: rest => if k₀ = k then (k, v) :: rest else (k₀, v₀) :: alInsert rest k v

/-- `HashMap::remove`: drop the binding of the key, if present. -/
def alRemove {α β : Type} [DecidableEq α] (m : List (α × β)) (k : α) :
    List (α × β) :=
  match m with
  | [] => []
  | (k₀, v₀) :: rest => if k₀ = k then rest else (k₀, v₀) :: alRemove rest k

/-- `HashSet::insert` on a duplicate-free list: append unless present. -/
def hsInsert (s : List IpAddr) (ip : IpAddr) : List IpAddr :=
  if s.contains ip then s else s ++ [ip]

/-- Insert every element of `ips` into the set `s` (the
`for ip in ips { zone_ips.insert(*ip); }` loop). -/
def hsInsertAll (s ips : List IpAddr) : List IpAddr :=
  ips.foldl hsInsert s

/-- `types.rs` `InterfaceConfig`. -/
structure InterfaceConfig where
  name : String
  dhcp : Option Bool
  address : Option String
  nftables_zone : Option String
deriving DecidableEq

/-- `types.rs` `AppConfig`. -/
structure AppConfig where
  interfaces : List InterfaceConfig
  socket_path : Option String
  nftables_rules_path : Option String
deriving DecidableEq

/-- `types.rs` `NetworkState` (the `if_index_to_name` field lives in the
watcher model below; only `interface_ips` is read by the projector). -/
structure NetworkState where
  interface_ips : List (String × List IpAddr)
deriving DecidableEq

/-- A command carried by one nftables submission: flush a named set, or
add the listed elements to a named set.  Element values stand for the
`to_string()` renderings the code produces. -/
inductive NfCmd where
  | flushSet (setName : String)
  | addElements (setName : String) (elems : List IpAddr)
deriving DecidableEq

/-- `true` exactly on flush commands. -/
def NfCmd.isFlush : NfCmd → Bool
  | .flushSet _ => true
  | .addElements _ _ => false

/-- A structural command of `load_rules`: create the table, or create a
per-zone set (`isV6` distinguishes the `_ipv6` set). -/
inductive NfStructCmd where
  | createTable (name : String)
  | createSet (setName : String) (isV6 : Bool)
deriving DecidableEq

/-- `nftables.rs` lines 51-56: the unique zones of the config, i.e. the
deduplicated `nftables_zone` values (`filter_map` + `HashSet` collect;
kept in first-occurrence order, which no claim depends on). -/
def uniqueZones (config : List InterfaceConfig) : List String :=
  config.foldl
    (fun acc ic =>
      match ic.nftables_zone with
      | some z => if acc.contains z then acc else acc ++ [z]
      | none => acc)
    []

/-- `NftablesManager::load_rules` (nftables.rs 39-104): one batch that
creates the `filter` table and, for every unique zone, the `{Z}_ips`
and `{Z}_ipv6` sets. -/
def load_rules (config : List InterfaceConfig) : List NfStructCmd :=
  NfStructCmd.createTable "filter" ::
    (uniqueZones config).foldl
      (fun acc z =>
        acc ++ [NfStructCmd.createSet (z ++ "_ips") false,
                NfStructCmd.createSet (z ++ "_ipv6") true])
      []

/-- `apply_rules` lines 111-127: build `zone_to_ips` by walking the
config; for an interface bound to a zone whose name has an entry in
`interface_ips`, materialize the zone entry (`entry().or_default()`)
and insert each of the interface addresses into its set. -/
def buildZoneToIps (config : List InterfaceConfig)
    (interface_ips : List (String × List IpAddr)) : List (String × List IpAddr) :=
  config.foldl
    (fun acc ic =>
      match ic.nftables_zone with
      | none => acc
      | some zone =>
        match alGet interface_ips ic.name with
        | none => acc
        | some ips => alInsert acc zone (hsInsertAll ((alGet acc zone).getD []) ips))
    []

/-- `apply_rules` lines 130-171: for every key of `zone_to_ips`, a flush
of the `{Z}_ips` set followed by a flush of the `{Z}_ipv6` set. -/
def flushCommands (ztp : List (String × List IpAddr)) : List NfCmd :=
  ztp.foldl
    (fun acc p =>
      acc ++ [NfCmd.flushSet (p.1 ++ "_ips"), NfCmd.flushSet (p.1 ++ "_ipv6")])
    []

/-- `apply_rules` lines 185-234: for every `(zone, ips)` of
`zone_to_ips`, an add of the v4 elements to `{Z}_ips` when non-empty,
then an add of the v6 elements to `{Z}_ipv6` when non-empty. -/
def addCommands (ztp : List (String × List IpAddr)) : List NfCmd :=
  ztp.foldl
    (fun acc p =>
      let v4s := p.2.filter (fun ip => ip.isV4)
      let v6s := p.2.filter (fun ip => !ip.isV4)
      let acc₁ := if v4s.isEmpty then acc
        else acc ++ [NfCmd.addElements (p.1 ++ "_ips") v4s]
      if v6s.isEmpty then acc₁
      else acc₁ ++ [NfCmd.addElements (p.1 ++ "_ipv6") v6s])
    []

/-- `NftablesManager::apply_rules` (nftables.rs 107-248), abstracted to
the sequence of `helper::apply_ruleset` submissions it performs, in
order.  The flush commands are submitted on their own (lines 174-179)
and the add commands in a second, separate submission (lines 236-245);
an empty phase is skipped. -/
def apply_rules (config : List InterfaceConfig) (ns : NetworkState) :
    List (List NfCmd) :=
  let ztp := buildZoneToIps config ns.interface_ips
  let flushes := flushCommands ztp
  let adds := addCommands ztp
  (if flushes.isEmpty then [] else [flushes]) ++
    (if adds.isEmpty then [] else [adds])

/-- Kernel-side effect of one command on the named sets. -/
def runCmd (k : List (String × List IpAddr)) : NfCmd → List (String × List IpAddr)
  | .flushSet n => alInsert k n []
  | .addElements n es => alInsert k n (hsInsertAll ((alGet k n).getD []) es)

/-- Kernel-side effect of one submission (one transaction): the
commands applied in order. -/
def runSubmission (k : List (String × List IpAddr)) (cmds : List NfCmd) :
    List (String × List IpAddr) :=
  cmds.foldl runCmd k

/-- `types.rs` `NetworkEvent`. -/
inductive NetworkEvent where
  | IpUpdate (interface : String) (ips : List IpAddr)
  | LinkChanged (name : String) (is_up : Bool)
deriving DecidableEq

/-- `types.rs` `DockerEvent`. -/
inductive DockerEvent where
  | ContainerStarted (id : String) (ip : Option IpAddr)
  | ContainerStopped (id : String)
deriving DecidableEq

/-- `main.rs` `AppState` (line 23): config snapshot, network state and
tracked container addresses. -/
structure AppState where
  config : AppConfig
  network_state : NetworkState
  container_ips : List (String × IpAddr)
deriving DecidableEq

/-- State mutation of `handle_network_event` (main.rs 274-308): an
`IpUpdate` overwrites the interface entry with the carried set; a
`LinkChanged` with `is_up = false` removes the interface entry, and
with `is_up = true` changes nothing. -/
def handle_network_event_mutation (ns : NetworkState) : NetworkEvent → NetworkState
  | .IpUpdate interface ips => ⟨alInsert ns.interface_ips interface ips⟩
  | .LinkChanged name is_up =>
      if is_up then ns else ⟨alRemove ns.interface_ips name⟩

/-- State mutation of the `SystemEvent::Docker` branch of the main loop
(main.rs 133-159): a started container with an address is inserted into
`container_ips`; a started container without an address changes
nothing; a stopped container is removed. -/
def handleDockerEventState (c : List (String × IpAddr)) : DockerEvent →
    List (String × IpAddr)
  | .ContainerStarted id (some ip) => alInsert c id ip
  | .ContainerStarted _ none => c
  | .ContainerStopped id => alRemove c id

/-- The `SystemEvent::Docker` branch as a whole: the new `AppState`
paired with the list of projector submissions the branch performs.
The branch only mutates `container_ips` and never calls `apply_rules`
(both rule-update sites are `TODO` comments in the source), so the
submission list is always empty. -/
def handleDockerBranch (state : AppState) (d : DockerEvent) :
    AppState × List (List NfCmd) :=
  ({ state with container_ips := handleDockerEventState state.container_ips d }, [])

/-- The body of the task spawned by the `ControlCommand::Reload` branch
(main.rs 163-191).  `managerConfig` models the contents of
`interface_config_arc`, the config stored inside `NftablesManager`.
On a successful load the branch stores the new config in
`state.config`; the update of `interface_config_arc` is commented out
in the source (lines 174-177), so `apply_rules` runs with the
manager's stored config unchanged.  On a failed load nothing happens.
Returns the new app state, the (unchanged) manager config, and the
projector submissions performed. -/
def handleReload (state : AppState) (managerConfig : List InterfaceConfig)
    (loadResult : Option AppConfig) :
    AppState × List InterfaceConfig × List (List NfCmd) :=
  match loadResult with
  | some new_config =>
      let state₁ := { state with config := new_config }
      (state₁, managerConfig, apply_rules managerConfig state₁.network_state)
  | none => (state, managerConfig, [])

/-- The two event kinds of the unified queue that mutate the State
Store: network events (handled by a spawned task, main.rs 129-131) and
docker events (handled inline in the loop, main.rs 133-159). -/
inductive SystemEvent where
  | network (e : NetworkEvent)
  | docker (d : DockerEvent)
deriving DecidableEq

/-- Configuration of the event-loop model: the queue of not yet
dequeued events with their enqueue positions, the spawned
`handle_network_event` tasks not yet run, the State Store fields, and
the order in which State Store mutations have completed (by enqueue
position). -/
structure LoopState where
  queue : List (Nat × SystemEvent)
  pending : List (Nat × NetworkEvent)
  network_state : NetworkState
  container_ips : List (String × IpAddr)
  mutationLog : List Nat
deriving DecidableEq

/-- One scheduling decision: the loop task dequeues its next event, or
the runtime runs the `k`-th pending spawned task to completion. -/
inductive SchedChoice where
  | dispatch
  | runTask (k : Nat)
deriving DecidableEq

/-- One step of the event-loop system under a scheduling decision.
`dispatch` follows the `match event` of main.rs 121-159: a network
event only spawns a task (no State Store mutation yet); a docker event
mutates the State Store inline.  `runTask k` runs any pending spawned
task — the runtime gives no ordering guarantee between spawned tasks,
so `k` is a free choice.  `none` marks an unavailable decision. -/
def loopStep (s : LoopState) : SchedChoice → Option LoopState
  | .dispatch =>
    match s.queue with
    | [] => none
    | (id, .network e) :: rest =>
        some { s with queue := rest, pending := s.pending ++ [(id, e)] }
    | (id, .docker d) :: rest =>
        some { s with queue := rest,
                      container_ips := handleDockerEventState s.container_ips d,
                      mutationLog := s.mutationLog ++ [id] }
  | .runTask k =>
    match s.pending.get? k with
    | none => none
    | some (id, e) =>
        some { s with pending := s.pending.eraseIdx k,
                      network_state := handle_network_event_mutation s.network_state e,
                      mutationLog := s.mutationLog ++ [id] }

/-- Run the event-loop system under a list of scheduling decisions. -/
def runLoop (s : LoopState) : List SchedChoice → Option LoopState
  | [] => some s
  | c :: cs =>
    match loopStep s c with
    | none => none
    | some s₁ => runLoop s₁ cs

/-- The mutable fields of `NetworkMonitor` (network.rs 23-29). -/
structure MonitorState where
  if_index_to_name : List (Nat × String)
  current_ips : List (Nat × List IpAddr)
deriving DecidableEq

/-- A NEWLINK/DELLINK message: the header index, the `IfName`
attribute when present, and whether `header.flags` contains `Up`. -/
structure LinkMessage where
  index : Nat
  ifname : Option String
  up : Bool
deriving DecidableEq

/-- A NEWADDR/DELADDR message: the header index and the `Address`
attribute when present. -/
structure AddressMessage where
  index : Nat
  address : Option IpAddr
deriving DecidableEq

/-- `NetworkMonitor::handle_link_change` (network.rs 181-214).  On
NEWLINK (`is_add = true`) with a name attribute: store the
index-to-name binding and emit `LinkChanged` when the previous binding
was absent or different.  On DELLINK: when the index is known, remove
the binding, emit an empty `IpUpdate` when the index had addresses
(removing them), then emit `LinkChanged` down; unknown indices are
ignored.  Returns the new state and the emitted events in order. -/
def handle_link_change (s : MonitorState) (msg : LinkMessage) (is_add : Bool) :
    MonitorState × List NetworkEvent :=
  if is_add then
    match msg.ifname with
    | some name =>
        let old_name := alGet s.if_index_to_name msg.index
        let s₁ := { s with if_index_to_name := alInsert s.if_index_to_name msg.index name }
        if old_name = none ∨ old_name ≠ some name then
          (s₁, [NetworkEvent.LinkChanged name msg.up])
        else
          (s₁, [])
    | none => (s, [])
  else
    match alGet s.if_index_to_name msg.index with
    | some removed_name =>
        let s₁ := { s with if_index_to_name := alRemove s.if_index_to_name msg.index }
        if (alGet s₁.current_ips msg.index).isSome then
          ({ s₁ with current_ips := alRemove s₁.current_ips msg.index },
           [NetworkEvent.IpUpdate removed_name [],
            NetworkEvent.LinkChanged removed_name false])
        else
          (s₁, [NetworkEvent.LinkChanged removed_name false])
    | none => (s, [])

/-- `iter().position(|&x| x == ip_addr)`: index of the first
occurrence, if any. -/
def position (ip_addr : IpAddr) : List IpAddr → Option Nat
  | [] => none
  | x :: rest =>
    if x = ip_addr then some 0 else (position ip_addr rest).map (· + 1)

/-- `NetworkMonitor::handle_address_change` (network.rs 138-179).  For
a known index carrying an address attribute: NEWADDR materializes the
entry (`entry().or_default()`) and appends the address when absent;
DELADDR removes the address at its position when present.  When the
set changed, emit one `IpUpdate` carrying the full current set for the
interface read back from the mutated state (line 169); otherwise emit
nothing.  Events for an unknown index are logged and dropped. -/
def handle_address_change (s : MonitorState) (msg : AddressMessage) (is_add : Bool) :
    MonitorState × List NetworkEvent :=
  match alGet s.if_index_to_name msg.index with
  | some if_name =>
    match msg.address with
    | some ip_addr =>
      if is_add then
        let ips := (alGet s.current_ips msg.index).getD []
        if ips.contains ip_addr then
          ({ s with current_ips := alInsert s.current_ips msg.index ips }, [])
        else
          let s₁ := { s with current_ips := alInsert s.current_ips msg.index (ips ++ [ip_addr]) }
          (s₁, [NetworkEvent.IpUpdate if_name ((alGet s₁.current_ips msg.index).getD [])])
      else
        match alGet s.current_ips msg.index with
        | some ips =>
          match position ip_addr ips with
          | some pos =>
            let s₁ := { s with current_ips := alInsert s.current_ips msg.index (ips.eraseIdx pos) }
            (s₁, [NetworkEvent.IpUpdate if_name ((alGet s₁.current_ips msg.index).getD [])])
          | none => (s, [])
        | none => (s, [])
    | none => (s, [])
  | none => (s, [])

/-- The initial address enumeration of `NetworkMonitor::start`
(network.rs 72-94): fold the dumped address messages into an empty
map; a message whose index has a known name materializes the entry and
appends the address when not already present; others are dropped. -/
def initial_address_enumeration (if_index_to_name : List (Nat × String))
    (msgs : List AddressMessage) : List (Nat × List IpAddr) :=
  msgs.foldl
    (fun acc msg =>
      match msg.address with
      | some ip =>
        match alGet if_index_to_name msg.index with
        | some _ =>
          let ips := (alGet acc msg.index).getD []
          if ips.contains ip then alInsert acc msg.index ips
          else alInsert acc msg.index (ips ++ [ip])
        | none => acc
      | none => acc)
    []

/-- The watcher invariant: every per-interface address list is
duplicate-free. -/
def NoDupIps (m : List (Nat × List IpAddr)) : Prop :=
  ∀ idx, ((alGet m idx).getD []).Nodup

/-- `str::trim` on the received line: strip leading and trailing
whitespace. -/
def trimModel (s : String) : String :=
  ⟨((s.data.dropWhile Char.isWhitespace).reverse.dropWhile Char.isWhitespace).reverse⟩

/-- Response written for one command line (socket.rs 103-159).
`status_reply` is the payload the event loop sends over the status
reply slot; the ping reply is the loop's literal `PONG`
(main.rs 217). -/
def respond (status_reply : String) (line : String) : String :=
  let command := trimModel line
  if command = "reload" then "OK: Reload command sent\n"
  else if command = "status" then status_reply ++ "\n"
  else if command = "ping" then "PONG" ++ "\n"
  else if command = "shutdown" then "OK: Shutdown command sent\n"
  else "ERROR: Unknown command\n"

/-- `SocketHandler::handle_connection` (socket.rs 93-164) over the
lines available on the connection, returning the responses written.
The handler performs a single `read_line`: at EOF (no line) it returns
nothing, and otherwise it answers the first line and returns, closing
the connection; the remaining lines are never read. -/
def handle_connection (status_reply : String) (lines : List String) : List String :=
  match lines with
  | [] => []
  | line :: _rest => [respond status_reply line]

/-- One attached network of a container inspection
(`bollard` `EndpointSettings`): its optional address string. -/
structure ContainerNetwork where
  ip_address : Option String
deriving DecidableEq

/-- The `NetworkSettings` of a container inspection: the default
network address and the attached networks in iteration order. -/
structure NetworkSettings where
  ip_address : Option String
  networks : Option (List (String × ContainerNetwork))
deriving DecidableEq

/-- The `for (network_name, network_data) in networks` loop of
`get_container_ip` (docker.rs 130-140): the first non-empty address
across attached networks, if any. -/
def first_network_ip : List (String × ContainerNetwork) → Option String
  | [] => none
  | (_, nd) :: rest =>
    match nd.ip_address with
    | some ip => if ip ≠ "" then some ip else first_network_ip rest
    | none => first_network_ip rest

/-- `DockerMonitor::get_container_ip` (docker.rs 115-150) over the
inspection outcome: an inspection failure propagates as an error; with
settings present, return the default-network address when non-empty,
otherwise the first non-empty address across attached networks,
otherwise nothing. -/
def get_container_ip (inspectResult : Except String (Option NetworkSettings)) :
    Except String (Option String) :=
  match inspectResult with
  | .error e => .error e
  | .ok none => .ok none
  | .ok (some network_settings) =>
    let fromDefault : Option String :=
      match network_settings.ip_address with
      | some ip => if ip ≠ "" then some ip else none
      | none => none
    match fromDefault with
    | some ip => .ok (some ip)
    | none =>
      match network_settings.networks with
      | some networks => .ok (first_network_ip networks)
      | none => .ok none

/-- The container-start arm of `DockerMonitor::handle_event`
(docker.rs 71-95): resolve the address string (an inspection failure
is logged and treated as no string), parse it with the standard
library's parser `parse` (unparseable strings give no address), and
emit `ContainerStarted` in every case. -/
def handle_container_start (parse : String → Option IpAddr) (container_id : String)
    (inspectResult : Except String (Option NetworkSettings)) : DockerEvent :=
  let ip_address_str : Option String :=
    match get_container_ip inspectResult with
    | .ok ip => ip
    | .error _ => none
  let ip_address : Option IpAddr := ip_address_str.bind parse
  DockerEvent.ContainerStarted container_id ip_address

/-- Modelled from the spec (§4.2 primary-address resolution order),
for comparison with `get_container_ip`: the default-network address if
non-empty; otherwise the first non-empty address across attached
networks; otherwise absent. -/
def primary_address_spec (ns : NetworkSettings) : Option String :=
  match ns.ip_address with
  | some ip =>
    if ip ≠ "" then some ip
    else ((ns.networks.getD []).filterMap (fun p => p.2.ip_address)).find? (fun ip => ip ≠ "")
  | none =>
    ((ns.networks.getD []).filterMap (fun p => p.2.ip_address)).find? (fun ip => ip ≠ "")

/-! ### Helper lemmas -/

theorem alGet_alInsert {α β : Type} [DecidableEq α] (m : List (α × β)) (k : α)
    (v : β) (k' : α) :
    alGet (alInsert m k v) k' = if k = k' then some v else alGet m k' := by
  induction m with
  | nil => simp [alInsert, alGet]
  | cons p rest ih =>
    obtain ⟨k₀, v₀⟩ := p
    by_cases h₁ : k₀ = k
    · subst h₁
      by_cases h₂ : k₀ = k' <;> simp [alInsert, alGet, h₂]
    · by_cases h₂ : k₀ = k'
      · subst h₂
        have h₃ : ¬(k = k₀) := fun h => h₁ h.symm
        simp [alInsert, alGet, h₁, h₃]
      · simp [alInsert, alGet, h₁, h₂, ih]

theorem alGet_alRemove_none {α β : Type} [DecidableEq α] (m : List (α × β))
    (k : α) (h : alGet m k = none) : alRemove m k = m := by
  induction m with
  | nil => simp [alRemove]
  | cons p rest ih =>
    obtain ⟨k₀, v₀⟩ := p
    by_cases h₁ : k₀ = k
    · simp [alGet, h₁] at h
    · simp [alGet, h₁] at h
      simp [alRemove, h₁, ih h]

theorem alGet_some_mem {α β : Type} [DecidableEq α] {m : List (α × β)} {k : α}
    {v : β} (h : alGet m k = some v) : (k, v) ∈ m := by
  induction m with
  | nil => simp [alGet] at h
  | cons p rest ih =>
    obtain ⟨k₀, v₀⟩ := p
    by_cases h₁ : k₀ = k
    · subst h₁
      simp [alGet] at h
      simp [h]
    · simp [alGet, h₁] at h
      simp [ih h]

theorem position_lt_length {ip : IpAddr} :
    ∀ {l : List IpAddr} {i : Nat}, position ip l = some i → i < l.length := by
  intro l
  induction l with
  | nil => intro i h; simp [position] at h
  | cons x rest ih =>
    intro i h
    by_cases h₁ : x = ip
    · simp [position, h₁] at h
      simp only [List.length_cons]
      omega
    · simp [position, h₁] at h
      obtain ⟨j, hj, rfl⟩ := h
      have := ih hj
      simp only [List.length_cons]
      omega

theorem foldl_append_mem_iff {α β : Type} (f : α → List β) :
    ∀ (l : List α) (acc : List β) (c : β),
      (c ∈ l.foldl (fun acc a => acc ++ f a) acc) ↔ (c ∈ acc ∨ ∃ a ∈ l, c ∈ f a) := by
  intro l
  induction l with
  | nil => simp
  | cons a l ih =>
    intro acc c
    simp only [List.foldl_cons, ih, List.mem_append, List.mem_cons]
    constructor
    · rintro ((h | h) | ⟨b, hb, hc⟩)
      · exact Or.inl h
      · exact Or.inr ⟨a, Or.inl rfl, h⟩
      · exact Or.inr ⟨b, Or.inr hb, hc⟩
    · rintro (h | ⟨b, (rfl | hb), hc⟩)
      · exact Or.inl (Or.inl h)
      · exact Or.inl (Or.inr hc)
      · exact Or.inr ⟨b, hb, hc⟩

theorem flushCommands_isFlush (ztp : List (String × List IpAddr)) :
    ∀ c ∈ flushCommands ztp, c.isFlush = true := by
  intro c hc
  have h := foldl_append_mem_iff
      (fun p : String × List IpAddr =>
        [NfCmd.flushSet (p.1 ++ "_ips"), NfCmd.flushSet (p.1 ++ "_ipv6")]) ztp [] c
  rcases h.mp hc with h₀ | ⟨a, _, hc₂⟩
  · simp at h₀
  · simp only [List.mem_cons, List.not_mem_nil, or_false] at hc₂
    rcases hc₂ with rfl | rfl <;> rfl

/-- The add commands a single `zone_to_ips` entry contributes, in
order: the v4 add when non-empty, then the v6 add when non-empty. -/
def addsFor (p : String × List IpAddr) : List NfCmd :=
  (if (p.2.filter (fun ip => ip.isV4)).isEmpty then []
   else [NfCmd.addElements (p.1 ++ "_ips") (p.2.filter (fun ip => ip.isV4))]) ++
  (if (p.2.filter (fun ip => !ip.isV4)).isEmpty then []
   else [NfCmd.addElements (p.1 ++ "_ipv6") (p.2.filter (fun ip => !ip.isV4))])

theorem addCommands_eq_foldl (ztp : List (String × List IpAddr)) :
    addCommands ztp = ztp.foldl (fun acc p => acc ++ addsFor p) [] := by
  have h : (fun (acc : List NfCmd) (p : String × List IpAddr) =>
      let v4s := p.2.filter (fun ip => ip.isV4)
      let v6s := p.2.filter (fun ip => !ip.isV4)
      let acc₁ := if v4s.isEmpty then acc
        else acc ++ [NfCmd.addElements (p.1 ++ "_ips") v4s]
      if v6s.isEmpty then acc₁
      else acc₁ ++ [NfCmd.addElements (p.1 ++ "_ipv6") v6s]) =
      (fun acc p => acc ++ addsFor p) := by
    funext acc p
    simp only [addsFor]
    split_ifs <;> simp
  rw [addCommands, h]

theorem addCommands_not_isFlush (ztp : List (String × List IpAddr)) :
    ∀ c ∈ addCommands ztp, c.isFlush = false := by
  intro c hc
  rw [addCommands_eq_foldl] at hc
  rcases (foldl_append_mem_iff addsFor ztp [] c).mp hc with h | ⟨a, _, hc₂⟩
  · simp at h
  · simp only [addsFor, List.mem_append] at hc₂
    rcases hc₂ with h | h <;> split_ifs at h <;> simp at h <;> subst h <;> rfl

/-- Concrete inputs for claim C1: one interface bound to zone `wan`,
holding one v4 address. -/
def cfgC1 : List InterfaceConfig := [⟨"eth0", none, none, some "wan"⟩]

/-- Concrete network state for claim C1. -/
def nsC1 : NetworkState := ⟨[("eth0", [IpAddr.v4 203 0 113 5])]⟩

/-- C1, counterexample.  The claim says the flush commands and the
add-element commands are built into one batch and submitted as a
single transaction.  On the concrete input, `apply_rules` performs two
separate submissions: the first holds only flush commands, the second
the add command; and after the first transaction alone the kernel set
`wan_ips` is observably flushed while the new element has not been
added. -/
theorem apply_rules_not_single_transaction :
    (apply_rules cfgC1 nsC1).length = 2 ∧
    ((apply_rules cfgC1 nsC1).headD []).all NfCmd.isFlush = true ∧
    alGet (runSubmission [("wan_ips", [IpAddr.v4 203 0 113 5])]
        ((apply_rules cfgC1 nsC1).headD [])) "wan_ips" = some [] ∧
    (apply_rules cfgC1 nsC1).getLastD [] =
      [NfCmd.addElements "wan_ips" [IpAddr.v4 203 0 113 5]] := by
  decide

/-- C1, amended.  `apply_rules` never mixes flush and add commands in
one submission: every submission is all-flush or all-add, and whenever
both phases are non-empty it performs exactly two submissions, the
flush commands first and the add commands second — so the projection
is not applied as one atomic transaction. -/
theorem apply_rules_two_phase (config : List InterfaceConfig) (ns : NetworkState) :
    (∀ sub ∈ apply_rules config ns,
        (∀ c ∈ sub, c.isFlush = true) ∨ (∀ c ∈ sub, c.isFlush = false)) ∧
    (flushCommands (buildZoneToIps config ns.interface_ips) ≠ [] →
      addCommands (buildZoneToIps config ns.interface_ips) ≠ [] →
      apply_rules config ns =
        [flushCommands (buildZoneToIps config ns.interface_ips),
         addCommands (buildZoneToIps config ns.interface_ips)]) := by
  constructor
  · intro sub hsub
    simp only [apply_rules, List.mem_append] at hsub
    rcases hsub with h | h
    · split_ifs at h with hf
      · simp at h
      · simp at h
        subst h
        exact Or.inl (flushCommands_isFlush _)
    · split_ifs at h with ha
      · simp at h
      · simp at h
        subst h
        exact Or.inr (addCommands_not_isFlush _)
  · intro hf ha
    have hf' : (flushCommands (buildZoneToIps config ns.interface_ips)).isEmpty = false :=
      List.isEmpty_eq_false.mpr hf
    have ha' : (addCommands (buildZoneToIps config ns.interface_ips)).isEmpty = false :=
      List.isEmpty_eq_false.mpr ha
    simp [apply_rules, hf', ha']

/-- Witness for the amended C1 theorem at the concrete C1 input. -/
theorem apply_rules_two_phase_witness :
    apply_rules cfgC1 nsC1 =
      [flushCommands (buildZoneToIps cfgC1 nsC1.interface_ips),
       addCommands (buildZoneToIps cfgC1 nsC1.interface_ips)] :=
  (apply_rules_two_phase cfgC1 nsC1).2 (by decide) (by decide)

/-- Manager-stored config for claim C2: `eth0` bound to zone `wan`
(the contents of `interface_config_arc` from startup). -/
def mgrC2 : List InterfaceConfig := [⟨"eth0", none, none, some "wan"⟩]

/-- Reloaded config for claim C2: `eth0` rebound to zone `lan`. -/
def newCfgC2 : AppConfig := ⟨[⟨"eth0", none, none, some "lan"⟩], none, none⟩

/-- App state at reload time for claim C2: `eth0` still holds its one
address. -/
def appC2 : AppState :=
  ⟨⟨[⟨"eth0", none, none, some "wan"⟩], none, none⟩,
   ⟨[("eth0", [IpAddr.v4 203 0 113 5])]⟩, []⟩

/-- C2, code bug.  After a reload that rebinds `eth0` from `wan` to
`lan` with addresses unchanged, the reload branch stores the new
config in the app state but leaves the projector's stored config
untouched (the update of `interface_config_arc` is commented out), so
the projection it triggers still flushes and refills the `wan` sets —
adding the address back to `wan_ips` and issuing no command at all for
`lan_ips` — which differs from the projection the new bindings would
produce. -/
theorem reload_keeps_stale_zone_bindings :
    (handleReload appC2 mgrC2 (some newCfgC2)).1.config = newCfgC2 ∧
    (handleReload appC2 mgrC2 (some newCfgC2)).2.1 = mgrC2 ∧
    (handleReload appC2 mgrC2 (some newCfgC2)).2.2 =
      [[NfCmd.flushSet "wan_ips", NfCmd.flushSet "wan_ipv6"],
       [NfCmd.addElements "wan_ips" [IpAddr.v4 203 0 113 5]]] ∧
    apply_rules newCfgC2.interfaces appC2.network_state =
      [[NfCmd.flushSet "lan_ips", NfCmd.flushSet "lan_ipv6"],
       [NfCmd.addElements "lan_ips" [IpAddr.v4 203 0 113 5]]] ∧
    (handleReload appC2 mgrC2 (some newCfgC2)).2.2 ≠
      apply_rules newCfgC2.interfaces appC2.network_state := by
  decide

/-- `true` exactly on events handled inline by the loop's docker
branch (network events are handed to a spawned task instead). -/
def SystemEvent.isDocker : SystemEvent → Bool
  | .docker _ => true
  | .network _ => false

/-- Initial configuration for claim C3: two network events enqueued in
order 0, 1, nothing yet dispatched. -/
def initC3 : LoopState :=
  ⟨[(0, .network (.IpUpdate "eth0" [IpAddr.v4 10 0 0 1])),
    (1, .network (.IpUpdate "eth1" [IpAddr.v4 10 0 0 2]))], [], ⟨[]⟩, [], []⟩

/-- Scheduling for claim C3: the loop dispatches both events (spawning
two tasks), then the runtime runs the second task before the first. -/
def choicesC3 : List SchedChoice :=
  [.dispatch, .dispatch, .runTask 1, .runTask 0]

/-- C3, counterexample.  The claim says events are processed strictly
in enqueue order.  Network events are handled by spawned tasks
(main.rs 129-131), and the runtime orders spawned tasks freely; under
the explicit schedule `choicesC3` the event enqueued second has its
State Store mutation complete before the first one begins, so the
mutation log reads `[1, 0]`. -/
theorem event_loop_not_fifo :
    (runLoop initC3 choicesC3).map LoopState.mutationLog = some [1, 0] := by
  decide

/-- C3, amended.  FIFO processing holds for the events the loop
mutates inline (the docker branch; the same applies to control
commands): for a queue of inline-processed events, every execution
mutates the State Store in strict enqueue order.  For network events
the mutation happens in a spawned task and may be reordered
(`event_loop_not_fifo`). -/
theorem event_loop_inline_fifo :
    ∀ (choices : List SchedChoice) (s final : LoopState),
      s.pending = [] →
      s.queue.all (fun p => p.2.isDocker) = true →
      List.Pairwise (· < ·) (s.mutationLog ++ s.queue.map Prod.fst) →
      runLoop s choices = some final →
      List.Pairwise (· < ·) final.mutationLog := by
  intro choices
  induction choices with
  | nil =>
    intro s final _ _ hinv hrun
    simp only [runLoop, Option.some_inj] at hrun
    subst hrun
    exact List.Pairwise.sublist (List.sublist_append_left _ _) hinv
  | cons c cs ih =>
    intro s final hp hq hinv hrun
    cases hstep : loopStep s c with
    | none => simp [runLoop, hstep] at hrun
    | some s₁ =>
      simp only [runLoop, hstep] at hrun
      cases c with
      | dispatch =>
        cases hqe : s.queue with
        | nil => simp [loopStep, hqe] at hstep
        | cons p rest =>
          obtain ⟨id, ev⟩ := p
          cases ev with
          | network e =>
            rw [hqe] at hq
            simp [SystemEvent.isDocker] at hq
          | docker d =>
            simp only [loopStep, hqe, Option.some_inj] at hstep
            subst hstep
            rw [hqe] at hq hinv
            simp only [List.all_cons, Bool.and_eq_true] at hq
            refine ih
              { queue := rest, pending := s.pending,
                network_state := s.network_state,
                container_ips := handleDockerEventState s.container_ips d,
                mutationLog := s.mutationLog ++ [id] }
              final hp hq.2 ?_ hrun
            simpa [List.append_assoc] using hinv
      | runTask k =>
        simp [loopStep, hp] at hstep

/-- Witness for the amended C3 theorem: a queue of two docker events
dispatched in order yields the increasing mutation log `[0, 1]`. -/
theorem event_loop_inline_fifo_witness :
    List.Pairwise (· < ·)
      (LoopState.mutationLog ⟨[], [], ⟨[]⟩, [], [0, 1]⟩) :=
  event_loop_inline_fifo [.dispatch, .dispatch]
    ⟨[(0, .docker (.ContainerStopped "a")), (1, .docker (.ContainerStopped "b"))],
     [], ⟨[]⟩, [], []⟩
    ⟨[], [], ⟨[]⟩, [], [0, 1]⟩ rfl (by decide) (by decide) (by decide)

/-- Config for claim C4: zone `wan` is configured (via `eth0`), but no
interface has an entry in `interface_ips`. -/
def cfgC4 : List InterfaceConfig := [⟨"eth0", none, none, some "wan"⟩]

/-- C4, counterexample.  The claim says apply-projection issues a
flush for both sets of every configured zone, including a zone none of
whose bound interfaces has an entry in `interface_ips`.  With zone
`wan` configured and an empty `interface_ips`, ensure-structure does
create both `wan` sets, but `apply_rules` builds an empty
`zone_to_ips` and issues no commands at all — in particular no flush
of `wan_ips` or `wan_ipv6`. -/
theorem configured_zone_without_entry_not_flushed :
    uniqueZones cfgC4 = ["wan"] ∧
    NfStructCmd.createSet "wan_ips" false ∈ load_rules cfgC4 ∧
    NfStructCmd.createSet "wan_ipv6" true ∈ load_rules cfgC4 ∧
    buildZoneToIps cfgC4 [] = [] ∧
    apply_rules cfgC4 ⟨[]⟩ = [] := by
  decide

theorem mem_uniqueZones (config : List InterfaceConfig) (z : String) :
    z ∈ uniqueZones config ↔ ∃ ic ∈ config, ic.nftables_zone = some z := by
  have aux : ∀ (l : List InterfaceConfig) (acc : List String),
      z ∈ l.foldl (fun acc ic =>
          match ic.nftables_zone with
          | some zz => if acc.contains zz then acc else acc ++ [zz]
          | none => acc) acc ↔
        (z ∈ acc ∨ ∃ ic ∈ l, ic.nftables_zone = some z) := by
    intro l
    induction l with
    | nil => intro acc; simp
    | cons ic l ih =>
      intro acc
      simp only [List.foldl_cons, ih, List.mem_cons]
      cases haz : ic.nftables_zone with
      | none => simp [haz]
      | some zz =>
        cases hc : acc.contains zz with
        | true =>
          have hmem : zz ∈ acc := by simpa using hc
          simp only [haz, hc, if_true]
          constructor
          · rintro (h | ⟨ic₀, hic₀, hz₀⟩)
            · exact Or.inl h
            · exact Or.inr ⟨ic₀, Or.inr hic₀, hz₀⟩
          · rintro (h | ⟨ic₀, (rfl | hic₀), hz₀⟩)
            · exact Or.inl h
            · rw [haz, Option.some_inj] at hz₀
              exact Or.inl (hz₀ ▸ hmem)
            · exact Or.inr ⟨ic₀, hic₀, hz₀⟩
        | false =>
          simp only [haz, hc, Bool.false_eq_true, if_false, List.mem_append,
            List.mem_singleton]
          constructor
          · rintro ((h | h) | ⟨ic₀, hic₀, hz₀⟩)
            · exact Or.inl h
            · exact Or.inr ⟨ic, Or.inl rfl, by rw [haz, h]⟩
            · exact Or.inr ⟨ic₀, Or.inr hic₀, hz₀⟩
          · rintro (h | ⟨ic₀, (rfl | hic₀), hz₀⟩)
            · exact Or.inl (Or.inl h)
            · rw [haz, Option.some_inj] at hz₀
              exact Or.inl (Or.inr hz₀.symm)
            · exact Or.inr ⟨ic₀, hic₀, hz₀⟩
  simpa [uniqueZones] using aux config []

theorem createSet_mem_load_rules (config : List InterfaceConfig) (z : String)
    (h : z ∈ uniqueZones config) :
    NfStructCmd.createSet (z ++ "_ips") false ∈ load_rules config ∧
    NfStructCmd.createSet (z ++ "_ipv6") true ∈ load_rules config := by
  have hm := foldl_append_mem_iff
      (fun zz : String => [NfStructCmd.createSet (zz ++ "_ips") false,
                           NfStructCmd.createSet (zz ++ "_ipv6") true])
      (uniqueZones config) []
  constructor
  · simp only [load_rules, List.mem_cons]
    exact Or.inr ((hm _).mpr (Or.inr ⟨z, h, by simp⟩))
  · simp only [load_rules, List.mem_cons]
    exact Or.inr ((hm _).mpr (Or.inr ⟨z, h, by simp⟩))

theorem buildZoneToIps_isSome (config : List InterfaceConfig)
    (iips : List (String × List IpAddr)) (z : String) :
    (alGet (buildZoneToIps config iips) z).isSome = true ↔
      ∃ ic ∈ config, ic.nftables_zone = some z ∧ (alGet iips ic.name).isSome = true := by
  have aux : ∀ (l : List InterfaceConfig) (acc : List (String × List IpAddr)),
      (alGet (l.foldl (fun acc ic =>
          match ic.nftables_zone with
          | none => acc
          | some zone =>
            match alGet iips ic.name with
            | none => acc
            | some ips =>
              alInsert acc zone (hsInsertAll ((alGet acc zone).getD []) ips)) acc) z).isSome
          = true ↔
        ((alGet acc z).isSome = true ∨
          ∃ ic ∈ l, ic.nftables_zone = some z ∧ (alGet iips ic.name).isSome = true) := by
    intro l
    induction l with
    | nil => intro acc; simp
    | cons ic l ih =>
      intro acc
      simp only [List.foldl_cons, ih, List.mem_cons]
      cases haz : ic.nftables_zone with
      | none => simp [haz]
      | some zone =>
        cases hig : alGet iips ic.name with
        | none => simp [haz, hig]
        | some ips =>
          by_cases hz : zone = z
          · subst hz
            simp [haz, hig, alGet_alInsert]
          · simp [haz, hig, alGet_alInsert, hz]
  simpa [buildZoneToIps, alGet] using aux config []

theorem flush_mem_of_key (ztp : List (String × List IpAddr)) (z : String)
    (v : List IpAddr) (h : (z, v) ∈ ztp) :
    NfCmd.flushSet (z ++ "_ips") ∈ flushCommands ztp ∧
    NfCmd.flushSet (z ++ "_ipv6") ∈ flushCommands ztp := by
  have hm := foldl_append_mem_iff
      (fun p : String × List IpAddr =>
        [NfCmd.flushSet (p.1 ++ "_ips"), NfCmd.flushSet (p.1 ++ "_ipv6")]) ztp []
  constructor
  · exact (hm _).mpr (Or.inr ⟨(z, v), h, by simp⟩)
  · exact (hm _).mpr (Or.inr ⟨(z, v), h, by simp⟩)

/-- C4, amended.  Ensure-structure does create both kernel sets for
every configured zone; but apply-projection's `zone_to_ips` holds a
zone exactly when some interface bound to it has an entry in
`interface_ips`, and only the zones in `zone_to_ips` get their two
sets flushed — a configured zone with no present interface is
materialized (empty) by ensure-structure yet receives no flush from
apply-projection. -/
theorem projection_zone_coverage (config : List InterfaceConfig)
    (iips : List (String × List IpAddr)) (z : String) :
    ((∃ ic ∈ config, ic.nftables_zone = some z) →
      NfStructCmd.createSet (z ++ "_ips") false ∈ load_rules config ∧
      NfStructCmd.createSet (z ++ "_ipv6") true ∈ load_rules config) ∧
    ((alGet (buildZoneToIps config iips) z).isSome = true ↔
      ∃ ic ∈ config, ic.nftables_zone = some z ∧ (alGet iips ic.name).isSome = true) ∧
    ((alGet (buildZoneToIps config iips) z).isSome = true →
      NfCmd.flushSet (z ++ "_ips") ∈ flushCommands (buildZoneToIps config iips) ∧
      NfCmd.flushSet (z ++ "_ipv6") ∈ flushCommands (buildZoneToIps config iips)) := by
  refine ⟨?_, buildZoneToIps_isSome config iips z, ?_⟩
  · intro h
    exact createSet_mem_load_rules config z ((mem_uniqueZones config z).mpr h)
  · intro h
    obtain ⟨v, hv⟩ := Option.isSome_iff_exists.mp h
    exact flush_mem_of_key _ z v (alGet_some_mem hv)

/-- Witness for the amended C4 theorem: with `eth0` bound to `wan` and
an (empty) entry for `eth0` present in `interface_ips`, both `wan`
sets are flushed. -/
theorem projection_zone_coverage_witness :
    NfCmd.flushSet ("wan" ++ "_ips") ∈
      flushCommands (buildZoneToIps [⟨"eth0", none, none, some "wan"⟩] [("eth0", [])]) ∧
    NfCmd.flushSet ("wan" ++ "_ipv6") ∈
      flushCommands (buildZoneToIps [⟨"eth0", none, none, some "wan"⟩] [("eth0", [])]) :=
  (projection_zone_coverage [⟨"eth0", none, none, some "wan"⟩] [("eth0", [])] "wan").2.2
    (by decide)

/-- C5, counterexample.  The claim says the handler keeps reading
lines until EOF, one command per line.  On a connection offering two
`ping` lines, the handler answers only the first and closes; reading
until EOF would have produced two responses. -/
theorem handle_connection_not_until_eof :
    handle_connection "report" ["ping\n", "ping\n"] = ["PONG\n"] ∧
    List.map (respond "report") ["ping\n", "ping\n"] = ["PONG\n", "PONG\n"] ∧
    handle_connection "report" ["ping\n", "ping\n"] ≠
      List.map (respond "report") ["ping\n", "ping\n"] := by
  decide

/-- C5, amended.  Every accepted connection processes exactly one
line: the handler answers the first line when there is one (EOF right
away yields no response) and then returns, closing the connection;
the remaining lines are never read. -/
theorem handle_connection_single_line (status_reply : String) (lines : List String) :
    handle_connection status_reply lines =
      (lines.take 1).map (respond status_reply) := by
  cases lines <;> rfl

/-- C6, counterexample.  The claim says a NEWLINK that keeps the same
index and name but flips the up flag produces an event.  Processing
NEWLINK(1, eth0, up) from the empty state emits an event and stores
the mapping; a following NEWLINK(1, eth0, down) — same index and
name, up flag flipped — emits nothing, because the watcher only
compares the (index, name) mapping and tracks no up flag. -/
theorem link_up_flip_no_event :
    (handle_link_change ⟨[], []⟩ ⟨1, some "eth0", true⟩ true).2 =
      [NetworkEvent.LinkChanged "eth0" true] ∧
    (handle_link_change (handle_link_change ⟨[], []⟩ ⟨1, some "eth0", true⟩ true).1
        ⟨1, some "eth0", false⟩ true).2 = [] := by
  decide

/-- C6, amended.  On NEWLINK, a `LinkChanged` event is emitted exactly
when the message carries a name and the stored mapping for the index
is absent or differs from it (new or renamed mapping); in that case
the single emitted event carries the name and the message's up flag.
An up-flag change alone emits nothing. -/
theorem link_event_iff_mapping_changed (s : MonitorState) (msg : LinkMessage) :
    ((handle_link_change s msg true).2 ≠ [] ↔
      ∃ name, msg.ifname = some name ∧
        alGet s.if_index_to_name msg.index ≠ some name) ∧
    (∀ name, msg.ifname = some name →
      alGet s.if_index_to_name msg.index ≠ some name →
      (handle_link_change s msg true).2 = [NetworkEvent.LinkChanged name msg.up]) := by
  cases hifn : msg.ifname with
  | none =>
    constructor
    · simp [handle_link_change, hifn]
    · intro name h
      simp [hifn] at h
  | some name =>
    constructor
    · by_cases hold : alGet s.if_index_to_name msg.index = some name
      · simp [handle_link_change, hifn, hold]
      · simp [handle_link_change, hifn, hold]
    · intro name₀ hname hold
      injection hname with hname
      subst hname
      simp [handle_link_change, hifn, hold]

/-- Witness for the amended C6 theorem: a genuinely new mapping emits
the `LinkChanged` event. -/
theorem link_event_iff_mapping_changed_witness :
    (handle_link_change ⟨[], []⟩ ⟨2, some "eth1", true⟩ true).2 =
      [NetworkEvent.LinkChanged "eth1" true] :=
  (link_event_iff_mapping_changed ⟨[], []⟩ ⟨2, some "eth1", true⟩).2 "eth1" rfl
    (by decide)

theorem append_singleton_ne (l : List IpAddr) (a : IpAddr) : l ++ [a] ≠ l := by
  intro h
  have hlen := congrArg List.length h
  simp [List.length_append] at hlen

theorem eraseIdx_ne_self {l : List IpAddr} {i : Nat} (h : i < l.length) :
    l.eraseIdx i ≠ l := by
  intro he
  have hlen := congrArg List.length he
  rw [List.length_eraseIdx, if_pos h] at hlen
  omega

/-- C7.  Address-change processing: an event for an unknown interface
index is dropped without touching the state; every emitted event
carries the watcher's full current address set for that interface
(read from the post-state); and no event is emitted exactly when the
processing left the interface's address set unchanged - in particular
adding an already-present address or deleting an absent one is
suppressed. -/
theorem addr_update_full_set_and_suppression (s : MonitorState)
    (msg : AddressMessage) (is_add : Bool) :
    (alGet s.if_index_to_name msg.index = none →
      handle_address_change s msg is_add = (s, [])) ∧
    (∀ e ∈ (handle_address_change s msg is_add).2, ∃ name,
      alGet s.if_index_to_name msg.index = some name ∧
      e = NetworkEvent.IpUpdate name
        ((alGet (handle_address_change s msg is_add).1.current_ips msg.index).getD [])) ∧
    ((handle_address_change s msg is_add).2 = [] ↔
      (alGet (handle_address_change s msg is_add).1.current_ips msg.index).getD [] =
        (alGet s.current_ips msg.index).getD []) := by
  cases hname : alGet s.if_index_to_name msg.index with
  | none =>
    have hred : handle_address_change s msg is_add = (s, []) := by
      simp [handle_address_change, hname]
    refine ⟨fun _ => hred, ?_, ?_⟩
    · intro e he
      rw [hred] at he
      simp at he
    · rw [hred]
      simp
  | some name =>
    cases haddr : msg.address with
    | none =>
      have hred : handle_address_change s msg is_add = (s, []) := by
        simp [handle_address_change, hname, haddr]
      refine ⟨fun h => absurd h (by simp), ?_, ?_⟩
      · intro e he
        rw [hred] at he
        simp at he
      · rw [hred]
        simp
    | some ip =>
      cases is_add with
      | true =>
        by_cases hcont : ip ∈ (alGet s.current_ips msg.index).getD []
        · have hred : handle_address_change s msg true =
              ({ s with current_ips := alInsert s.current_ips msg.index ((alGet s.current_ips msg.index).getD []) }, []) := by
            simp [handle_address_change, hname, haddr, hcont]
          refine ⟨fun h => absurd h (by simp), ?_, ?_⟩
          · intro e he
            rw [hred] at he
            simp at he
          · rw [hred]
            simp [alGet_alInsert]
        · have hred : handle_address_change s msg true =
              ({ s with current_ips := alInsert s.current_ips msg.index (((alGet s.current_ips msg.index).getD []) ++ [ip]) },
               [NetworkEvent.IpUpdate name (((alGet s.current_ips msg.index).getD []) ++ [ip])]) := by
            simp [handle_address_change, hname, haddr, hcont, alGet_alInsert]
          refine ⟨fun h => absurd h (by simp), ?_, ?_⟩
          · intro e he
            rw [hred] at he
            simp only [List.mem_singleton] at he
            rw [hred]
            exact ⟨name, rfl, by rw [he]; simp [alGet_alInsert]⟩
          · rw [hred]
            simp [alGet_alInsert, append_singleton_ne]
      | false =>
        cases hcur : alGet s.current_ips msg.index with
        | none =>
          have hred : handle_address_change s msg false = (s, []) := by
            simp [handle_address_change, hname, haddr, hcur]
          refine ⟨fun h => absurd h (by simp), ?_, ?_⟩
          · intro e he
            rw [hred] at he
            simp at he
          · rw [hred]
            simp [hcur]
        | some ips =>
          cases hpos : position ip ips with
          | none =>
            have hred : handle_address_change s msg false = (s, []) := by
              simp [handle_address_change, hname, haddr, hcur, hpos]
            refine ⟨fun h => absurd h (by simp), ?_, ?_⟩
            · intro e he
              rw [hred] at he
              simp at he
            · rw [hred]
              simp [hcur]
          | some pos =>
            have hred : handle_address_change s msg false =
                ({ s with current_ips := alInsert s.current_ips msg.index (ips.eraseIdx pos) },
                 [NetworkEvent.IpUpdate name (ips.eraseIdx pos)]) := by
              simp [handle_address_change, hname, haddr, hcur, hpos, alGet_alInsert]
            refine ⟨fun h => absurd h (by simp), ?_, ?_⟩
            · intro e he
              rw [hred] at he
              simp only [List.mem_singleton] at he
              rw [hred]
              exact ⟨name, rfl, by rw [he]; simp [alGet_alInsert]⟩
            · rw [hred]
              have hne := eraseIdx_ne_self (position_lt_length hpos)
              simp [alGet_alInsert, hne]

/-- Witness for C7: an address event for an interface index with no
stored name is dropped without state change or event. -/
theorem addr_update_full_set_and_suppression_witness :
    handle_address_change ⟨[], []⟩ ⟨7, some (IpAddr.v4 192 0 2 1)⟩ true =
      (⟨[], []⟩, []) :=
  (addr_update_full_set_and_suppression ⟨[], []⟩
    ⟨7, some (IpAddr.v4 192 0 2 1)⟩ true).1 rfl

theorem noDupIps_alInsert {m : List (Nat × List IpAddr)} {k : Nat}
    {v : List IpAddr} (hm : NoDupIps m) (hv : v.Nodup) :
    NoDupIps (alInsert m k v) := by
  intro idx
  rw [alGet_alInsert]
  by_cases h : k = idx
  · simpa [h] using hv
  · simpa [h] using hm idx

theorem nodup_append_singleton {ips : List IpAddr} {ip : IpAddr}
    (h : ips.Nodup) (hn : ip ∉ ips) : (ips ++ [ip]).Nodup := by
  rw [List.nodup_append]
  refine ⟨h, List.nodup_singleton ip, ?_⟩
  intro a ha hb
  simp only [List.mem_singleton] at hb
  subst hb
  exact hn ha

theorem initial_enumeration_nodup (names : List (Nat × String))
    (msgs : List AddressMessage) :
    NoDupIps (initial_address_enumeration names msgs) := by
  have aux : ∀ (l : List AddressMessage) (acc : List (Nat × List IpAddr)),
      NoDupIps acc →
      NoDupIps (l.foldl (fun acc msg =>
        match msg.address with
        | some ip =>
          match alGet names msg.index with
          | some _ =>
            let ips := (alGet acc msg.index).getD []
            if ips.contains ip then alInsert acc msg.index ips
            else alInsert acc msg.index (ips ++ [ip])
          | none => acc
        | none => acc) acc) := by
    intro l
    induction l with
    | nil => intro acc h; exact h
    | cons m l ih =>
      intro acc hacc
      simp only [List.foldl_cons]
      apply ih
      cases haddr : m.address with
      | none => simpa [haddr] using hacc
      | some ip =>
        cases hn : alGet names m.index with
        | none => simpa [haddr, hn] using hacc
        | some nm =>
          by_cases hcont : ip ∈ (alGet acc m.index).getD []
          · have hres : NoDupIps
                (alInsert acc m.index ((alGet acc m.index).getD [])) :=
              noDupIps_alInsert hacc (hacc m.index)
            simpa [haddr, hn, hcont] using hres
          · have hres : NoDupIps
                (alInsert acc m.index (((alGet acc m.index).getD []) ++ [ip])) :=
              noDupIps_alInsert hacc (nodup_append_singleton (hacc m.index) hcont)
            simpa [haddr, hn, hcont] using hres
  exact aux msgs [] (fun idx => by simp [alGet])

theorem handle_address_change_nodup (s : MonitorState) (msg : AddressMessage)
    (is_add : Bool) (h : NoDupIps s.current_ips) :
    NoDupIps (handle_address_change s msg is_add).1.current_ips := by
  cases hname : alGet s.if_index_to_name msg.index with
  | none => simpa [handle_address_change, hname] using h
  | some name =>
    cases haddr : msg.address with
    | none => simpa [handle_address_change, hname, haddr] using h
    | some ip =>
      cases is_add with
      | true =>
        by_cases hcont : ip ∈ (alGet s.current_ips msg.index).getD []
        · have hres : NoDupIps
              (alInsert s.current_ips msg.index ((alGet s.current_ips msg.index).getD [])) :=
            noDupIps_alInsert h (h msg.index)
          simpa [handle_address_change, hname, haddr, hcont] using hres
        · have hres : NoDupIps
              (alInsert s.current_ips msg.index (((alGet s.current_ips msg.index).getD []) ++ [ip])) :=
            noDupIps_alInsert h (nodup_append_singleton (h msg.index) hcont)
          simpa [handle_address_change, hname, haddr, hcont] using hres
      | false =>
        cases hcur : alGet s.current_ips msg.index with
        | none => simpa [handle_address_change, hname, haddr, hcur] using h
        | some ips =>
          cases hpos : position ip ips with
          | none => simpa [handle_address_change, hname, haddr, hcur, hpos] using h
          | some pos =>
            have hips : ips.Nodup := by
              have hidx := h msg.index
              rw [hcur] at hidx
              simpa using hidx
            have hres : NoDupIps (alInsert s.current_ips msg.index (ips.eraseIdx pos)) :=
              noDupIps_alInsert h
                (List.Nodup.sublist (List.eraseIdx_sublist _ _) hips)
            simpa [handle_address_change, hname, haddr, hcur, hpos] using hres

/-- C9.  The watcher's per-interface address lists are duplicate-free:
the invariant holds after the initial address enumeration (for any set
of dumped messages) and is preserved by every NEWADDR and DELADDR the
watcher processes. -/
theorem current_ips_nodup_invariant (names : List (Nat × String))
    (msgs : List AddressMessage) (s : MonitorState) (msg : AddressMessage)
    (is_add : Bool) :
    NoDupIps (initial_address_enumeration names msgs) ∧
    (NoDupIps s.current_ips →
      NoDupIps (handle_address_change s msg is_add).1.current_ips) :=
  ⟨initial_enumeration_nodup names msgs, handle_address_change_nodup s msg is_add⟩

/-- Witness for C9 at a concrete input: processing a NEWADDR on a
fresh monitor keeps the per-interface lists duplicate-free. -/
theorem current_ips_nodup_invariant_witness :
    NoDupIps (handle_address_change ⟨[(1, "eth0")], []⟩
      ⟨1, some (IpAddr.v4 10 0 0 1)⟩ true).1.current_ips :=
  (current_ips_nodup_invariant [] [] ⟨[(1, "eth0")], []⟩
    ⟨1, some (IpAddr.v4 10 0 0 1)⟩ true).2 (fun idx => by simp [alGet])

theorem first_network_ip_eq_find (nets : List (String × ContainerNetwork)) :
    first_network_ip nets =
      (nets.filterMap (fun p => p.2.ip_address)).find? (fun ip => ip ≠ "") := by
  induction nets with
  | nil => rfl
  | cons p rest ih =>
    obtain ⟨n, nd⟩ := p
    cases hip : nd.ip_address with
    | none => simpa [first_network_ip, hip] using ih
    | some ip =>
      by_cases he : ip = ""
      · subst he
        simpa [first_network_ip, hip, List.find?] using ih
      · simp [first_network_ip, hip, List.find?, he]

/-- C8.  Container-start address resolution: with inspection data
present, the code's resolution equals the spec's order (default
network address if non-empty, else first non-empty address across
attached networks, else absent); an inspection failure yields an
absent address; an unparseable address string yields an absent
address; and in every case a `ContainerStarted` event for the
container is emitted. -/
theorem container_ip_resolution (parse : String → Option IpAddr)
    (container_id : String) (r : Except String (Option NetworkSettings)) :
    (∀ ns, r = .ok (some ns) → get_container_ip r = .ok (primary_address_spec ns)) ∧
    (∀ e, r = .error e →
      handle_container_start parse container_id r =
        DockerEvent.ContainerStarted container_id none) ∧
    (∀ str, get_container_ip r = .ok (some str) → parse str = none →
      handle_container_start parse container_id r =
        DockerEvent.ContainerStarted container_id none) ∧
    (∃ a, handle_container_start parse container_id r =
        DockerEvent.ContainerStarted container_id a) := by
  refine ⟨?_, ?_, ?_, ?_⟩
  · rintro ns rfl
    simp only [get_container_ip, primary_address_spec]
    cases hip : ns.ip_address with
    | none =>
      cases hnet : ns.networks with
      | none => simp [hip, hnet, first_network_ip_eq_find]
      | some nets => simp [hip, hnet, first_network_ip_eq_find]
    | some ip =>
      by_cases he : ip = ""
      · subst he
        cases hnet : ns.networks with
        | none => simp [hip, hnet, first_network_ip_eq_find]
        | some nets => simp [hip, hnet, first_network_ip_eq_find]
      · simp [hip, he]
  · rintro e rfl
    simp [handle_container_start, get_container_ip]
  · intro str hres hparse
    simp [handle_container_start, hres, hparse]
  · cases hres : get_container_ip r with
    | error e => exact ⟨none, by simp [handle_container_start, hres]⟩
    | ok ipstr => exact ⟨ipstr.bind parse, by simp [handle_container_start, hres]⟩

/-- Witness for C8: an address string the parser rejects still yields
the `ContainerStarted` event, with an absent address. -/
theorem container_ip_resolution_witness :
    handle_container_start (fun _ => none) "c1"
        (Except.ok (some ⟨some "not an ip", none⟩)) =
      DockerEvent.ContainerStarted "c1" none :=
  (container_ip_resolution (fun _ => none) "c1"
    (Except.ok (some ⟨some "not an ip", none⟩))).2.2.1 "not an ip" rfl rfl

/-- C10.  The docker branch of the event loop triggers no kernel
projection for any container event; stopping an untracked container
and starting a container with an absent address both leave the entire
app state (config, network state and tracked container addresses)
unchanged. -/
theorem docker_branch_frame (state : AppState) (d : DockerEvent) (id : String) :
    (handleDockerBranch state d).2 = [] ∧
    (alGet state.container_ips id = none →
      handleDockerBranch state (DockerEvent.ContainerStopped id) = (state, [])) ∧
    handleDockerBranch state (DockerEvent.ContainerStarted id none) = (state, []) := by
  refine ⟨rfl, ?_, ?_⟩
  · intro h
    simp [handleDockerBranch, handleDockerEventState, alGet_alRemove_none _ _ h]
  · simp [handleDockerBranch, handleDockerEventState]

/-- Witness for C10: stopping a container that is not tracked leaves
the state untouched and performs no projection. -/
theorem docker_branch_frame_witness :
    handleDockerBranch ⟨⟨[], none, none⟩, ⟨[]⟩, []⟩
        (DockerEvent.ContainerStopped "deadbeef") =
      (⟨⟨[], none, none⟩, ⟨[]⟩, []⟩, []) :=
  (docker_branch_frame ⟨⟨[], none, none⟩, ⟨[]⟩, []⟩
    (DockerEvent.ContainerStopped "deadbeef") "deadbeef").2.1 rfl

end Rnm
